import Mathlib

/-!
Verification of the extraction, classification, padding and merge logic of the
university and course data scraper (src/scraper.py, src/verify.py).

Texts are modelled as lists of characters.  Network access (requests via
get_soup) is an external collaborator and is modelled as an oracle parameter
returning an optional parsed document.  The regular-expression patterns of the
field extractor are embedded through a small backtracking matcher whose
candidate order mirrors the Python re module: leftmost starting position
first, alternation branches left to right, and greedy repetition longest
first.
-/

set_option maxHeartbeats 4000000
set_option maxRecDepth 4000

abbrev Str := List Char

/-- The sentinel used by the scraper for any value it could not determine. -/
def NA : Str := "Not Available".data

/-- Python str whitespace (the characters matched by str.strip and re \s). -/
def isPySpace (c : Char) : Bool :=
  c == ' ' || c == '\t' || c == '\n' || c == '\r' || c == '\x0b' || c == '\x0c'

/-- Python str.lower restricted to the alphabet used by the scraper. -/
def pyLower (s : Str) : Str := s.map Char.toLower

/-- Python str.strip: remove leading and trailing whitespace. -/
def pyStrip (s : Str) : Str :=
  (((s.dropWhile isPySpace).reverse).dropWhile isPySpace).reverse

def pyTitleGo : Bool → Str → Str
  | _, [] => []
  | prevAlpha, c :: t =>
      (if c.isAlpha then (if prevAlpha then c.toLower else c.toUpper) else c)
        :: pyTitleGo c.isAlpha t

/-- Python str.title: uppercase a letter not preceded by a letter, lowercase
the rest. -/
def pyTitle (s : Str) : Str := pyTitleGo false s

/-- Python str.replace applied to newline and space as in extract_course_name. -/
def replaceNL (s : Str) : Str := s.map (fun c => if c == '\n' then ' ' else c)

/-- The Python substring test needle in hay. -/
def isSubstr (needle : Str) : Str → Bool
  | [] => needle.isEmpty
  | c :: t => needle.isPrefixOf (c :: t) || isSubstr needle t

/-- Python str.split on a comma; always returns at least one piece. -/
def splitComma : Str → List Str
  | [] => [[]]
  | c :: t =>
      let r := splitComma t
      if c == ',' then [] :: r
      else
        match r with
        | [] => [[c]]
        | h :: t2 => (c :: h) :: t2

/-! ### A small regular-expression engine

Only the constructs used by the patterns of scraper.py are supported:
single-character classes, greedy bounded or unbounded repetition of a
character class, concatenation, alternation, the empty pattern and the
word-boundary assertion. -/

inductive RE : Type where
  | eps : RE
  | cls : (Char → Bool) → RE
  | rep : (Char → Bool) → Nat → Option Nat → RE
  | alt : RE → RE → RE
  | cat : RE → RE → RE
  | wordB : RE

def isWordChar (c : Char) : Bool := c.isAlphanum || c == '_'

def optWord : Option Char → Bool
  | none => false
  | some c => isWordChar c

/-- A word boundary lies between the previous character and the next one when
exactly one of the two is a word character. -/
def atBoundary (prev next : Option Char) : Bool := optWord prev != optWord next

/-- The previous character after consuming a span: the last consumed
character, or the old previous character when the span is empty. -/
def newPrev (prev : Option Char) (consumed : Str) : Option Char :=
  match consumed.reverse with
  | [] => prev
  | c :: _ => some c

/-- The list cap, cap-1, ..., lo (empty when cap < lo): candidate lengths of a
greedy repetition, longest first. -/
def downFrom (cap lo : Nat) : List Nat :=
  (List.range (cap + 1 - lo)).map (fun i => cap - i)

/-- Candidate splits for a greedy repetition of the class p between lo and hi
occurrences, longest first. -/
def repCands (p : Char → Bool) (lo : Nat) (hi : Option Nat) (s : Str) :
    List (Str × Str) :=
  let run := (s.takeWhile p).length
  let cap := match hi with | none => run | some h => min run h
  (downFrom cap lo).map (fun i => (s.take i, s.drop i))

/-- All candidate matches of a regular expression at the start of s, in the
backtracking order of the Python re module.  Each candidate is the consumed
span paired with the remaining input. -/
def matchR : RE → Option Char → Str → List (Str × Str)
  | .eps, _, s => [([], s)]
  | .cls _, _, [] => []
  | .cls p, _, c :: t => if p c then [([c], t)] else []
  | .rep p lo hi, _, s => repCands p lo hi s
  | .wordB, prev, s => if atBoundary prev s.head? then [([], s)] else []
  | .alt r1 r2, prev, s => matchR r1 prev s ++ matchR r2 prev s
  | .cat r1 r2, prev, s =>
      (matchR r1 prev s).flatMap (fun pr =>
        (matchR r2 (newPrev prev pr.1) pr.2).map (fun qr => (pr.1 ++ qr.1, qr.2)))

/-- A compiled pattern with exactly one capture group: the part before the
group, the group itself, and the part after the group. -/
structure Pat where
  pre : RE
  grp : RE
  post : RE

/-- Try a pattern at one fixed starting position; returns the text captured by
the group of the first full match in backtracking order. -/
def tryAt (pt : Pat) (prev : Option Char) (s : Str) : Option Str :=
  (matchR pt.pre prev s).findSome? (fun pr =>
    (matchR pt.grp (newPrev prev pr.1) pr.2).findSome? (fun gr =>
      if (matchR pt.post (newPrev (newPrev prev pr.1) gr.1) gr.2).isEmpty
      then none else some gr.1))

/-- re.search: try the pattern at every starting position, leftmost first. -/
def searchFrom (pt : Pat) (prev : Option Char) (s : Str) : Option Str :=
  match tryAt pt prev s with
  | some v => some v
  | none =>
      match s with
      | [] => none
      | c :: t => searchFrom pt (some c) t

def reSearch (pt : Pat) (s : Str) : Option Str := searchFrom pt none s

/-- The first pattern of the list that matches anywhere in s wins, as in the
for-loops over pattern lists in extract_details_from_page. -/
def firstMatch : List Pat → Str → Option Str
  | [], _ => none
  | pt :: rest, s =>
      match reSearch pt s with
      | some v => some v
      | none => firstMatch rest s

/-! ### Pattern combinators -/

/-- A case-insensitive literal, as all scraper patterns carry re.IGNORECASE. -/
def litci : Str → RE
  | [] => .eps
  | c :: t => .cat (.cls (fun d => d.toLower == c.toLower)) (litci t)

def strRE (s : String) : RE := litci s.data

def altList : List RE → RE
  | [] => .cls (fun _ => false)
  | [r] => r
  | r :: t => .alt r (altList t)

def catList : List RE → RE
  | [] => .eps
  | r :: t => .cat r (catList t)

def optRE (r : RE) : RE := .alt r .eps

/-! ### The concrete patterns of extract_details_from_page -/

def colonWS (c : Char) : Bool := c == ':' || isPySpace c

def notDot (c : Char) : Bool := !(c == '.')

def isDigitComma (c : Char) : Bool := c.isDigit || c == ','

def isCurrency (c : Char) : Bool :=
  c == '£' || c == '$' || c == '€' || c == '₹'

def wsRE : RE := .rep isPySpace 0 none

def numRE : RE := .rep Char.isDigit 1 none

def fracOpt : RE := optRE (.cat (.cls (fun c => c == '.')) numRE)

def sOpt : RE := .rep (fun c => c.toLower == 's') 0 (some 1)

def apostOpt : RE := .rep (fun c => c == '\x27') 0 (some 1)

def dotOpt : RE := .rep (fun c => c == '.') 0 (some 1)

def dashSpaceOpt : RE := .rep (fun c => c == '-' || c == ' ') 0 (some 1)

/-- years? | months? | semesters? -/
def unitYMS : RE := altList
  [.cat (strRE "year") sOpt, .cat (strRE "month") sOpt, .cat (strRE "semester") sOpt]

/-- years? | months? -/
def unitYM : RE := altList [.cat (strRE "year") sOpt, .cat (strRE "month") sOpt]

/-- duration[:\s]*((\d+(?:\.\d+)?\s*(?:years?|months?|semesters?))) -/
def durPat1 : Pat :=
  ⟨.cat (strRE "duration") (.rep colonWS 0 none),
   catList [numRE, fracOpt, wsRE, unitYMS], .eps⟩

/-- (\d+(?:\.\d+)?\s*(?:years?|months?))\s*(?:full[- ]?time|part[- ]?time|programme|program|course) -/
def durPat2 : Pat :=
  ⟨.eps, catList [numRE, fracOpt, wsRE, unitYM],
   .cat wsRE (altList
     [catList [strRE "full", dashSpaceOpt, strRE "time"],
      catList [strRE "part", dashSpaceOpt, strRE "time"],
      strRE "programme", strRE "program", strRE "course"])⟩

/-- (\d+\s*(?:years?|months?))\s -/
def durPat3 : Pat :=
  ⟨.eps, catList [numRE, wsRE, unitYM], .cls isPySpace⟩

def durPats : List Pat := [durPat1, durPat2, durPat3]

/-- The capture group shared by all three fee patterns:
[£$€₹]\s*[\d,]{3,}(?:\.\d+)? -/
def feeGroupRE : RE :=
  catList [.cls isCurrency, wsRE, .rep isDigitComma 3 none, fracOpt]

/-- (?:tuition|fee|cost)[^.]{0,50}(group) -/
def feePat1 : Pat :=
  ⟨.cat (altList [strRE "tuition", strRE "fee", strRE "cost"]) (.rep notDot 0 (some 50)),
   feeGroupRE, .eps⟩

/-- (group)\s*(?:per\s*(?:annum|year|semester)|tuition|fee) -/
def feePat2 : Pat :=
  ⟨.eps, feeGroupRE,
   .cat wsRE (altList
     [catList [strRE "per", wsRE, altList [strRE "annum", strRE "year", strRE "semester"]],
      strRE "tuition", strRE "fee"])⟩

/-- (group) alone -/
def feePat3 : Pat := ⟨.eps, feeGroupRE, .eps⟩

def feePats : List Pat := [feePat1, feePat2, feePat3]

/-- The level vocabulary alternation, in source order. -/
def levelGroupRE : RE := altList
  [catList [strRE "bachelor", apostOpt, sOpt],
   catList [strRE "master", apostOpt, sOpt],
   strRE "undergraduate", strRE "postgraduate", strRE "doctoral",
   catList [strRE "ph", dotOpt, strRE "d"],
   strRE "diploma",
   catList [strRE "professional", wsRE, strRE "graduate"],
   catList [strRE "juris", wsRE, strRE "doctor"],
   catList [strRE "doctor", wsRE, strRE "of", wsRE, strRE "medicine"]]

def levelPat : Pat := ⟨.wordB, levelGroupRE, .wordB⟩

def wordCharRE : RE := .rep isWordChar 1 none

/-- (?:eligib\w+|entry\s*requirement|admission\s*requirement)[:\s]*([^.]{10,120}) -/
def eligPat1 : Pat :=
  ⟨.cat (altList
      [.cat (strRE "eligib") wordCharRE,
       catList [strRE "entry", wsRE, strRE "requirement"],
       catList [strRE "admission", wsRE, strRE "requirement"]])
     (.rep colonWS 0 none),
   .rep notDot 10 (some 120), .eps⟩

/-- (?:applicants?\s*(?:must|should|need)|minimum\s*qualification)[:\s]*([^.]{10,120}) -/
def eligPat2 : Pat :=
  ⟨.cat (altList
      [catList [strRE "applicant", sOpt, wsRE,
                altList [strRE "must", strRE "should", strRE "need"]],
       catList [strRE "minimum", wsRE, strRE "qualification"]])
     (.rep colonWS 0 none),
   .rep notDot 10 (some 120), .eps⟩

/-- (A[\*]?[A-Z]{2,3}\s*(?:at\s*A[- ]?Level|including)[^.]{5,80}) with IGNORECASE,
so [A-Z] matches any letter -/
def eligPat3 : Pat :=
  ⟨.eps,
   catList [.cls (fun c => c.toLower == 'a'),
            .rep (fun c => c == '*') 0 (some 1),
            .rep Char.isAlpha 2 (some 3), wsRE,
            altList
              [catList [strRE "at", wsRE, .cls (fun c => c.toLower == 'a'),
                        dashSpaceOpt, strRE "level"],
               strRE "including"],
            .rep notDot 5 (some 80)],
   .eps⟩

/-- (10\+2\s*[^.]{5,80}) -/
def eligPat4 : Pat :=
  ⟨.eps,
   catList [strRE "10", .cls (fun c => c == '+'), .cls (fun c => c == '2'),
            wsRE, .rep notDot 5 (some 80)],
   .eps⟩

def eligPats : List Pat := [eligPat1, eligPat2, eligPat3, eligPat4]

/-! ### Documents and the field extractor -/

/-- An anchor element: its href attribute and its visible text. -/
structure Link where
  href : Str
  text : Str

/-- A parsed HTML document as far as the scraper inspects it: the
whitespace-joined visible body text, the text of the first h1 and first h2,
and the anchors returned by a CSS selection. -/
structure Soup where
  body : Option Str
  h1 : Option Str
  h2 : Option Str
  select : Str → List Link

/-- The dict returned by extract_details_from_page: only keys that were found
are present, modelled as optional fields. -/
structure Details where
  duration : Option Str
  fees : Option Str
  level : Option Str
  eligibility : Option Str
deriving DecidableEq

/-- extract_details_from_page: run each ordered pattern list over the body
text, first match wins; Duration and Level are title-cased, Eligibility is
truncated to 150 characters, all are stripped. -/
def extract_details_from_page (osoup : Option Soup) : Details :=
  match osoup with
  | none => ⟨none, none, none, none⟩
  | some s =>
      match s.body with
      | none => ⟨none, none, none, none⟩
      | some t =>
          ⟨(firstMatch durPats t).map (fun v => pyTitle (pyStrip v)),
           (firstMatch feePats t).map pyStrip,
           (reSearch levelPat t).map (fun v => pyTitle (pyStrip v)),
           (firstMatch eligPats t).map (fun v => (pyStrip v).take 150)⟩

def pickName : List (Option Str) → Option Str
  | [] => none
  | none :: rest => pickName rest
  | some t :: rest =>
      let text := replaceNL (pyStrip t)
      if 5 < text.length ∧ text.length < 120 then some text else pickName rest

/-- extract_course_name: the first h1 or h2 whose stripped text has length
strictly between 5 and 120. -/
def extract_course_name (osoup : Option Soup) : Option Str :=
  match osoup with
  | none => none
  | some s => pickName [s.h1, s.h2]

/-! ### The discipline classifier -/

/-- The keyword to label table of guess_discipline, in source order. -/
def discipline_map : List (Str × Str) :=
  [("computer".data, "Computer Science".data), ("engineering".data, "Engineering".data),
   ("law".data, "Law".data), ("medicine".data, "Medicine".data),
   ("medic".data, "Medicine".data),
   ("business".data, "Business".data), ("management".data, "Management".data),
   ("mba".data, "Management".data),
   ("pharm".data, "Pharmacy".data), ("nurs".data, "Nursing".data),
   ("architect".data, "Architecture".data),
   ("math".data, "Mathematics".data), ("econom".data, "Economics".data),
   ("dent".data, "Dentistry".data),
   ("communi".data, "Communication".data), ("history".data, "History".data),
   ("archaeol".data, "Archaeology".data),
   ("data science".data, "Data Science".data), ("arts".data, "Arts".data),
   ("science".data, "Sciences".data),
   ("hotel".data, "Hotel Management".data), ("commerce".data, "Commerce".data)]

/-- guess_discipline: first keyword of the table that occurs in the lowercased
name wins; General if none does. -/
def guess_discipline (name : Str) : Str :=
  match discipline_map.find? (fun kv => isSubstr kv.1 (pyLower name)) with
  | some kv => kv.2
  | none => "General".data

/-! ### University info from the reference page (fetch_wiki_university_info) -/

/-- One infobox row: the header cell text, the data cell text, and the href of
the first anchor inside the data cell when one exists. -/
structure InfoRow where
  th : Str
  td : Str
  tdLinkHref : Option Str

/-- A reference page as far as the scraper inspects it: the first heading and
the infobox rows (none when the page has no infobox). -/
structure WikiSoup where
  firstHeading : Option Str
  infobox : Option (List InfoRow)

structure UniInfo where
  uniName : Str
  country : Str
  city : Str
  website : Str
deriving DecidableEq

/-- The static fallback table of fetch_wiki_university_info: url-substring key,
country, city. -/
def wiki_fallbacks : List (Str × Str × Str) :=
  [("Harvard".data, "United States".data, "Cambridge".data),
   ("Oxford".data, "United Kingdom".data, "Oxford".data),
   ("Cambridge".data, "United Kingdom".data, "Cambridge".data),
   ("Islamia".data, "India".data, "New Delhi".data),
   ("Hamdard".data, "India".data, "New Delhi".data)]

/-- One iteration of the infobox row loop of fetch_wiki_university_info. -/
def applyInfoRow (info : UniInfo) (row : InfoRow) : UniInfo :=
  let header := pyLower (pyStrip row.th)
  let info1 :=
    if isSubstr "location".data header || isSubstr "city".data header then
      let parts := (splitComma (pyStrip row.td)).map pyStrip
      let info0 : UniInfo := ⟨info.uniName, info.country, parts.headD [], info.website⟩
      if 2 ≤ parts.length then
        ⟨info0.uniName, parts.getLastD [], info0.city, info0.website⟩
      else info0
    else info
  if isSubstr "website".data header then
    ⟨info1.uniName, info1.country, info1.city,
     match row.tdLinkHref with
     | some h => h
     | none => pyStrip row.td⟩
  else info1

/-- fetch_wiki_university_info: an empty dict on fetch failure is modelled as
none; otherwise heading, infobox location and website rows, then the static
fallback table keyed by a substring of the url, consulted only when no
structured country was found. -/
def fetch_wiki_university_info (fetchW : Str → Option WikiSoup) (wiki_url : Str) :
    Option UniInfo :=
  match fetchW wiki_url with
  | none => none
  | some soup =>
      let info0 : UniInfo := ⟨NA, NA, NA, NA⟩
      let info1 :=
        match soup.firstHeading with
        | some t => ⟨pyStrip t, info0.country, info0.city, info0.website⟩
        | none => info0
      let info2 :=
        match soup.infobox with
        | some rows => rows.foldl applyInfoRow info1
        | none => info1
      let info3 :=
        if info2.country = NA then
          match wiki_fallbacks.find? (fun f => isSubstr f.1 wiki_url) with
          | some f => ⟨info2.uniName, f.2.1, f.2.2, info2.website⟩
          | none => info2
        else info2
      some info3

/-! ### Course records and the course page scraper -/

/-- The course dict built by the scraper, with the keys Course Name, Level,
Discipline, Duration, Fees and Eligibility always present. -/
structure CourseDict where
  courseName : Str
  level : Str
  discipline : Str
  duration : Str
  fees : Str
  eligibility : Str
deriving DecidableEq

/-- scrape_course_page: get_soup is an oracle taking the url and the tls
verification flag.  On fetch failure the record keeps the fallback name and
every data field is the sentinel, Discipline included; otherwise the heading
name wins when acceptable, found details overwrite sentinels, and Discipline
is guessed from the final name. -/
def scrape_course_page (fetch : Str → Bool → Option Soup) (url : Str)
    (fallback_name : Str) (verify : Bool) : CourseDict :=
  match fetch url verify with
  | none => ⟨fallback_name, NA, NA, NA, NA, NA⟩
  | some soup =>
      let name :=
        match extract_course_name (some soup) with
        | some p => p
        | none => fallback_name
      let d := extract_details_from_page (some soup)
      ⟨name, d.level.getD NA, guess_discipline name,
       d.duration.getD NA, d.fees.getD NA, d.eligibility.getD NA⟩

/-- urljoin of urllib, abstracted: the resolution of a relative href against
the base url is modelled as concatenation, which is all the claims need. -/
def urljoin (base href : Str) : Str := base ++ href

/-- The body of the link loop of discover_and_scrape. -/
def discoverLoop (fetch : Str → Bool → Option Soup) (base : Str) (verify : Bool)
    (max_courses : Nat) :
    List Link → List Str → List CourseDict → List CourseDict
  | [], _, acc => acc
  | l :: ls, seen, acc =>
      if max_courses ≤ acc.length then acc
      else if l.href.isEmpty || l.text.length < 3 then
        discoverLoop fetch base verify max_courses ls seen acc
      else
        let full := if "http".data.isPrefixOf l.href then l.href else urljoin base l.href
        if seen.contains full then
          discoverLoop fetch base verify max_courses ls seen acc
        else
          discoverLoop fetch base verify max_courses ls (full :: seen)
            (acc ++ [scrape_course_page fetch full l.text verify])

/-- discover_and_scrape: fetch the listing page, select anchors, and scrape
each discovered link; an unreachable listing page yields the empty list. -/
def discover_and_scrape (fetch : Str → Bool → Option Soup) (listing_url : Str)
    (link_selector : Str) (base_url : Option Str) (verify : Bool)
    (max_courses : Nat) : List CourseDict :=
  let base := base_url.getD listing_url
  match fetch listing_url verify with
  | none => []
  | some soup => discoverLoop fetch base verify max_courses (soup.select link_selector) [] []

/-! ### Text-scan adapter level logic (JMI and Jamia Hamdard) -/

def jmi_programme_keywords : List Str :=
  ["b.tech".data, "m.tech".data, "b.sc".data, "m.sc".data, "mba".data, "bds".data,
   "b.arch".data, "diploma".data, "civil engineering".data,
   "mechanical engineering".data, "electrical engineering".data,
   "computer engineering".data, "electronics".data, "environmental".data,
   "aeronautic".data]

def jmi_master_keywords : List Str :=
  ["m.tech".data, "m.sc".data, "master".data, "mba".data]

/-- The level chain of extract_courses_jmi. -/
def jmiLevel (text : Str) : Str :=
  let tl := pyLower text
  if jmi_master_keywords.any (fun k => isSubstr k tl) then "Master\x27s".data
  else if isSubstr "ph.d".data tl then "Doctoral".data
  else if isSubstr "diploma".data tl then "Diploma".data
  else "Bachelor\x27s".data

/-- The matching condition of the JMI text scan. -/
def jmiMatched (text : Str) : Bool :=
  decide (8 ≤ text.length) && decide (text.length ≤ 100)
    && jmi_programme_keywords.any (fun k => isSubstr k (pyLower text))

def jh_course_keywords : List Str :=
  ["b.pharm".data, "d.pharm".data, "b.tech".data, "m.tech".data, "mba".data,
   "bba".data, "b.com".data, "b.sc".data, "m.sc".data, "ba.ll.b".data,
   "ll.m".data, "ph.d".data, "bachelor".data, "master".data, "diploma".data,
   "nursing".data, "hotel management".data, "bms".data]

def jh_skip_keywords : List Str :=
  ["to offer".data, "to provide".data, "to develop".data, "to use".data,
   "ambassador".data, "research".data, "vision".data, "mission".data]

def jh_master_keywords : List Str :=
  ["m.tech".data, "m.sc".data, "master".data, "mba".data, "ll.m".data]

/-- The level chain of extract_courses_jamia_hamdard; note it has no diploma
branch. -/
def jhLevel (text : Str) : Str :=
  let tl := pyLower text
  if jh_master_keywords.any (fun k => isSubstr k tl) then "Master\x27s".data
  else if isSubstr "ph.d".data tl then "Doctoral".data
  else "Bachelor\x27s".data

/-- The matching condition of the Jamia Hamdard text scan. -/
def jhMatched (text : Str) : Bool :=
  decide (5 < text.length) && decide (text.length < 80)
    && jh_course_keywords.any (fun k => isSubstr k (pyLower text))
    && !(jh_skip_keywords.any (fun k => isSubstr k (pyLower text)))

/-! ### Padding (pad_courses) -/

def natStr (n : Nat) : Str := (toString n).data

/-- The placeholder row appended by pad_courses at position n (1-based). -/
def placeholderCourse (label : Str) (n : Nat) : CourseDict :=
  ⟨label ++ " Course ".data ++ natStr n, NA, "General".data, NA, NA, NA⟩

/-- The while loop of pad_courses: append placeholders until at least 5 rows. -/
def padLoop (courses : List CourseDict) (label : Str) : List CourseDict :=
  if courses.length < 5 then
    padLoop (courses ++ [placeholderCourse label (courses.length + 1)]) label
  else courses
termination_by 5 - courses.length
decreasing_by simp; omega

/-- pad_courses: exactly 5 rows, padding with placeholders or truncating. -/
def pad_courses (courses : List CourseDict) (label : Str) : List CourseDict :=
  (padLoop courses label).take 5

/-- The expected run of placeholders: count rows starting at index n. -/
def padFrom (label : Str) (n : Nat) : Nat → List CourseDict
  | 0 => []
  | k + 1 => placeholderCourse label n :: padFrom label (n + 1) k

/-! ### The merge, dedup and verification block (main and verify_data) -/

structure UniRow where
  university_id : Str
  university_name : Str
  country : Str
  city : Str
  website : Str
deriving DecidableEq

structure CourseRow where
  course_id : Str
  university_id : Str
  course_name : Str
  level : Str
  discipline : Str
  duration : Str
  fees : Str
  eligibility : Str
deriving DecidableEq

/-- pandas drop_duplicates with keep last: a row survives exactly when no
later row has the same key; surviving rows keep their original order. -/
def dropDupKeepLast {α β : Type} [DecidableEq β] (key : α → β) : List α → List α
  | [] => []
  | r :: rs =>
      if rs.any (fun r2 => key r2 = key r) then dropDupKeepLast key rs
      else r :: dropDupKeepLast key rs

/-- The university merge of main: prior rows before new rows, then
drop_duplicates on university_name keeping the last. -/
def mergeUniversities (prior new : List UniRow) : List UniRow :=
  dropDupKeepLast (fun r => r.university_name) (prior ++ new)

/-- The course merge of main: prior rows before new rows, then
drop_duplicates on the pair course_name, university_id keeping the last. -/
def mergeCourses (prior new : List CourseRow) : List CourseRow :=
  dropDupKeepLast (fun c => (c.course_name, c.university_id)) (prior ++ new)

/-- The relational integrity check of verify_data: every course university_id
occurs among the university ids. -/
def refIntegrity (unis : List UniRow) (courses : List CourseRow) : Bool :=
  courses.all (fun c => unis.any (fun u => u.university_id = c.university_id))

/-! ### Concrete inputs used to settle the claims -/

/-- The body text of the spec example: heading plus the two sentences. -/
def c2_body : Str :=
  "BSc Computer Science Duration: 3 years Tuition fee: £15,000 per annum".data

def c2_soup : Soup := ⟨some c2_body, some "BSc Computer Science".data, none, fun _ => []⟩

/-- A page whose only fee-like text is a currency symbol followed by three
commas. -/
def c4_counter_soup : Soup := ⟨some "cost £,,,".data, none, none, fun _ => []⟩

/-- A page with an ordinary three-digit fee. -/
def c4_witness_soup : Soup := ⟨some "fee £999 x".data, none, none, fun _ => []⟩

/-- A reference page whose infobox holds a single location row with text t. -/
def c8_location_soup (t : Str) : WikiSoup := ⟨none, some [⟨"Location".data, t, none⟩]⟩

def c8_fetch (t : Str) : Str → Option WikiSoup := fun _ => some (c8_location_soup t)

/-- A persisted dataset holding one university and one of its courses. -/
def c1_prior_universities : List UniRow :=
  [⟨"u-old".data, "University of Oxford".data, NA, NA, NA⟩]

def c1_prior_courses : List CourseRow :=
  [⟨"c-old".data, "u-old".data, "Old Course".data, NA, NA, NA, NA, NA⟩]

/-- A fresh scrape of the same university under a fresh id. -/
def c1_new_universities : List UniRow :=
  [⟨"u-new".data, "University of Oxford".data, NA, NA, NA⟩]

def c1_new_courses : List CourseRow :=
  [⟨"c-new".data, "u-new".data, "New Course".data, NA, NA, NA, NA, NA⟩]

/-! ### Lemmas about the matcher -/

theorem mem_downFrom {cap lo i : Nat} (h : i ∈ downFrom cap lo) :
    lo ≤ i ∧ i ≤ cap := by
  simp only [downFrom, List.mem_map, List.mem_range] at h
  obtain ⟨j, hj, rfl⟩ := h
  omega

theorem take_all_of_le_takeWhile {p : Char → Bool} :
    ∀ (l : Str) (i : Nat), i ≤ (l.takeWhile p).length →
      ∀ x ∈ l.take i, p x = true := by
  intro l
  induction l with
  | nil => intro i h x hx; simp at hx
  | cons c t ih =>
      intro i h x hx
      cases i with
      | zero => simp at hx
      | succ j =>
          cases hc : p c with
          | false => rw [List.takeWhile_cons, hc] at h; simp at h
          | true =>
              simp only [List.takeWhile_cons, hc, if_true, List.length_cons] at h
              rw [List.take_succ_cons] at hx
              rcases List.mem_cons.mp hx with rfl | hx2
              · exact hc
              · exact ih j (by omega) x hx2

theorem mem_matchR_rep {p : Char → Bool} {lo : Nat} {hi : Option Nat}
    {prev : Option Char} {s cs rest : Str}
    (h : (cs, rest) ∈ matchR (.rep p lo hi) prev s) :
    (∀ x ∈ cs, p x = true) ∧ lo ≤ cs.length := by
  have hrun : (s.takeWhile p).length ≤ s.length := (List.takeWhile_prefix p).length_le
  cases hi with
  | none =>
      simp only [matchR, repCands, List.mem_map] at h
      obtain ⟨i, hi2, heq⟩ := h
      obtain ⟨hlo, hcap⟩ := mem_downFrom hi2
      cases heq
      refine ⟨take_all_of_le_takeWhile s i hcap, ?_⟩
      rw [List.length_take]
      omega
  | some hv =>
      simp only [matchR, repCands, List.mem_map] at h
      obtain ⟨i, hi2, heq⟩ := h
      obtain ⟨hlo, hcap⟩ := mem_downFrom hi2
      cases heq
      have hile : i ≤ (s.takeWhile p).length := by
        have := min_le_left ((s.takeWhile p).length) hv
        omega
      refine ⟨take_all_of_le_takeWhile s i hile, ?_⟩
      rw [List.length_take]
      omega

theorem matchR_cat_inv {r1 r2 : RE} {prev : Option Char} {s cs rest : Str}
    (h : (cs, rest) ∈ matchR (.cat r1 r2) prev s) :
    ∃ c1 r1' c2, (c1, r1') ∈ matchR r1 prev s
      ∧ (c2, rest) ∈ matchR r2 (newPrev prev c1) r1' ∧ cs = c1 ++ c2 := by
  simp only [matchR, List.mem_flatMap, List.mem_map] at h
  obtain ⟨⟨c1, r1'⟩, h1, ⟨c2, r2'⟩, h2, heq⟩ := h
  cases heq
  exact ⟨c1, r1', c2, h1, h2, rfl⟩

theorem matchR_cls_inv {p : Char → Bool} {prev : Option Char} {s cs rest : Str}
    (h : (cs, rest) ∈ matchR (.cls p) prev s) :
    ∃ c, p c = true ∧ cs = [c] ∧ s = c :: rest := by
  cases s with
  | nil => simp [matchR] at h
  | cons c t =>
      cases hc : p c with
      | false => rw [matchR, hc] at h; simp at h
      | true =>
          rw [matchR, hc] at h
          simp at h
          obtain ⟨h1, h2⟩ := h
          exact ⟨c, hc, by rw [h1], by rw [h2]⟩

theorem feeGroupRE_eq :
    feeGroupRE = .cat (.cls isCurrency)
      (.cat wsRE (.cat (.rep isDigitComma 3 none) (.cat fracOpt .eps))) := rfl

/-- Every candidate match of the shared fee capture group starts with a
currency symbol and contains at least 3 digit-or-comma characters after it. -/
theorem feeGroup_shape {prev : Option Char} {s cs rest : Str}
    (h : (cs, rest) ∈ matchR feeGroupRE prev s) :
    ∃ c t, cs = c :: t ∧ isCurrency c = true ∧ 3 ≤ t.countP isDigitComma := by
  rw [feeGroupRE_eq] at h
  obtain ⟨c1, r1', c2, hc1, hc2, rfl⟩ := matchR_cat_inv h
  obtain ⟨c, hpc, rfl, rfl⟩ := matchR_cls_inv hc1
  obtain ⟨sp, rsp, c3, _, hc3, rfl⟩ := matchR_cat_inv hc2
  obtain ⟨ds, rds, c4, hds, _, rfl⟩ := matchR_cat_inv hc3
  obtain ⟨hdsall, hdslen⟩ := mem_matchR_rep hds
  refine ⟨c, sp ++ (ds ++ c4), rfl, hpc, ?_⟩
  have hcount : ds.countP isDigitComma = ds.length := List.countP_eq_length.mpr hdsall
  rw [List.countP_append, List.countP_append]
  omega

theorem findSome_eq_some {α β : Type} {f : α → Option β} :
    ∀ {l : List α} {b : β}, l.findSome? f = some b → ∃ a ∈ l, f a = some b := by
  intro l
  induction l with
  | nil => intro b h; simp [List.findSome?] at h
  | cons x t ih =>
      intro b h
      rw [List.findSome?] at h
      cases hfx : f x with
      | some v =>
          rw [hfx] at h
          refine ⟨x, List.mem_cons_self x t, ?_⟩
          rw [hfx]
          exact h
      | none =>
          rw [hfx] at h
          obtain ⟨a, ha, hfa⟩ := ih (show List.findSome? f t = some b from h)
          exact ⟨a, List.mem_cons_of_mem x ha, hfa⟩

theorem tryAt_grp {pt : Pat} {prev : Option Char} {s v : Str}
    (h : tryAt pt prev s = some v) :
    ∃ prev2 s2 rest, (v, rest) ∈ matchR pt.grp prev2 s2 := by
  unfold tryAt at h
  obtain ⟨pr, _, h2⟩ := findSome_eq_some h
  obtain ⟨⟨g1, g2⟩, hgr, h3⟩ := findSome_eq_some h2
  by_cases hemp : (matchR pt.post (newPrev (newPrev prev pr.1) g1) g2).isEmpty
  · rw [if_pos hemp] at h3; cases h3
  · rw [if_neg hemp] at h3
    cases h3
    exact ⟨newPrev prev pr.1, pr.2, g2, hgr⟩

theorem searchFrom_grp {pt : Pat} :
    ∀ {s : Str} {prev : Option Char} {v : Str}, searchFrom pt prev s = some v →
      ∃ prev2 s2 rest, (v, rest) ∈ matchR pt.grp prev2 s2 := by
  intro s
  induction s with
  | nil =>
      intro prev v h
      rw [searchFrom] at h
      cases htry : tryAt pt prev [] with
      | some w => rw [htry] at h; cases h; exact tryAt_grp htry
      | none => rw [htry] at h; cases h
  | cons c t ih =>
      intro prev v h
      rw [searchFrom] at h
      cases htry : tryAt pt prev (c :: t) with
      | some w => rw [htry] at h; cases h; exact tryAt_grp htry
      | none => rw [htry] at h; exact ih h

theorem reSearch_grp {pt : Pat} {s v : Str} (h : reSearch pt s = some v) :
    ∃ prev2 s2 rest, (v, rest) ∈ matchR pt.grp prev2 s2 :=
  searchFrom_grp h

theorem firstMatch_grp :
    ∀ {pats : List Pat} {s v : Str}, firstMatch pats s = some v →
      ∃ pt ∈ pats, ∃ prev2 s2 rest, (v, rest) ∈ matchR pt.grp prev2 s2 := by
  intro pats
  induction pats with
  | nil => intro s v h; cases h
  | cons pt rest ih =>
      intro s v h
      rw [firstMatch] at h
      cases hs : reSearch pt s with
      | some w =>
          rw [hs] at h; cases h
          exact ⟨pt, List.mem_cons_self pt rest, reSearch_grp hs⟩
      | none =>
          rw [hs] at h
          obtain ⟨pt2, hmem, hrest⟩ := ih h
          exact ⟨pt2, List.mem_cons_of_mem pt hmem, hrest⟩

/-! ### Lemmas about strip and character counts -/

theorem currency_not_space {c : Char} (h : isCurrency c = true) :
    isPySpace c = false := by
  simp only [isCurrency, Bool.or_eq_true, beq_iff_eq] at h
  rcases h with ((rfl | rfl) | rfl) | rfl <;> decide

theorem digitComma_not_space {x : Char} (h : isPySpace x = true) :
    isDigitComma x = false := by
  simp only [isPySpace, Bool.or_eq_true, beq_iff_eq] at h
  rcases h with ((((rfl | rfl) | rfl) | rfl) | rfl) | rfl <;> decide

theorem countP_dropWhile_eq {p q : Char → Bool}
    (hpq : ∀ c, q c = true → p c = false) :
    ∀ l : Str, (l.dropWhile q).countP p = l.countP p := by
  intro l
  induction l with
  | nil => rfl
  | cons c t ih =>
      cases hq : q c with
      | false => simp [List.dropWhile_cons, hq]
      | true => simp [List.dropWhile_cons, hq, ih, List.countP_cons, hpq c hq]

theorem dropWhile_append_keep {q : Char → Bool} :
    ∀ (l1 l2 : Str), (∃ x ∈ l1, q x = false) →
      (l1 ++ l2).dropWhile q = l1.dropWhile q ++ l2 := by
  intro l1
  induction l1 with
  | nil => intro l2 h; simp at h
  | cons c t ih =>
      intro l2 h
      cases hq : q c with
      | false => simp [List.dropWhile_cons, hq]
      | true =>
          simp only [List.cons_append, List.dropWhile_cons, hq, if_true]
          apply ih
          obtain ⟨x, hx, hqx⟩ := h
          rcases List.mem_cons.mp hx with rfl | hx2
          · rw [hq] at hqx; cases hqx
          · exact ⟨x, hx2, hqx⟩

/-- Stripping a string whose head is not whitespace keeps the head and does
not change the count of characters of a class disjoint from whitespace. -/
theorem pyStrip_cons_shape {c : Char} {t : Str} {p : Char → Bool}
    (hcsp : isPySpace c = false)
    (hdisj : ∀ x, isPySpace x = true → p x = false)
    (hpos : 0 < t.countP p) :
    ∃ t2, pyStrip (c :: t) = c :: t2 ∧ t2.countP p = t.countP p := by
  obtain ⟨x, hx, hpx⟩ := List.countP_pos_iff.mp hpos
  have hxsp : isPySpace x = false := by
    cases hs : isPySpace x with
    | false => rfl
    | true => rw [hdisj x hs] at hpx; cases hpx
  have h1 : (c :: t).dropWhile isPySpace = c :: t := by
    simp [List.dropWhile_cons, hcsp]
  have h3 : (t.reverse ++ [c]).dropWhile isPySpace
      = t.reverse.dropWhile isPySpace ++ [c] :=
    dropWhile_append_keep _ _ ⟨x, List.mem_reverse.mpr hx, hxsp⟩
  refine ⟨(t.reverse.dropWhile isPySpace).reverse, ?_, ?_⟩
  · unfold pyStrip
    rw [h1, List.reverse_cons, h3]
    simp
  · rw [List.countP_reverse, countP_dropWhile_eq hdisj, List.countP_reverse]

/-! ### The shape of every extracted fee value -/

theorem fees_shape {osoup : Option Soup} {v : Str}
    (h : (extract_details_from_page osoup).fees = some v) :
    ∃ c t2, v = c :: t2 ∧ isCurrency c = true ∧ 3 ≤ t2.countP isDigitComma := by
  cases osoup with
  | none => cases h
  | some s =>
      cases hb : s.body with
      | none => rw [extract_details_from_page, hb] at h; cases h
      | some txt =>
          rw [extract_details_from_page, hb] at h
          simp only at h
          obtain ⟨raw, hraw, rfl⟩ := Option.map_eq_some'.mp h
          obtain ⟨pt, hpt, prev2, s2, rest, hmem⟩ := firstMatch_grp hraw
          have hgrp : pt.grp = feeGroupRE := by
            simp only [feePats, List.mem_cons, List.not_mem_nil, or_false] at hpt
            rcases hpt with rfl | rfl | rfl <;> rfl
          rw [hgrp] at hmem
          obtain ⟨c, t0, rfl, hcur, hcount⟩ := feeGroup_shape hmem
          obtain ⟨t2, hstrip, hc2⟩ :=
            pyStrip_cons_shape (t := t0) (p := isDigitComma) (currency_not_space hcur)
              (fun x hx => digitComma_not_space hx) (by omega)
          exact ⟨c, t2, hstrip, hcur, by omega⟩

/-! ### Lemmas about drop_duplicates with keep last -/

/-- After dropDupKeepLast, the rows carrying a given key are exactly the last
row of the input carrying that key. -/
theorem dropDupKeepLast_filter {α β : Type} [DecidableEq α] [DecidableEq β]
    (key : α → β) :
    ∀ (l : List α) (k : β),
      (dropDupKeepLast key l).filter (fun r => decide (key r = k))
        = (l.reverse.find? (fun r => decide (key r = k))).toList := by
  intro l
  induction l with
  | nil => intro k; rfl
  | cons r rs ih =>
      intro k
      rw [dropDupKeepLast, List.reverse_cons, List.find?_append]
      by_cases hdup : rs.any (fun r2 => decide (key r2 = key r)) = true
      · rw [if_pos hdup, ih]
        cases hfind : rs.reverse.find? (fun r2 => decide (key r2 = k)) with
        | some v => rfl
        | none =>
            have hpr : decide (key r = k) = false := by
              simp only [List.any_eq_true, decide_eq_true_eq] at hdup
              obtain ⟨x, hx, hkey⟩ := hdup
              have hnone := List.find?_eq_none.mp hfind
              by_contra hcon
              rw [Bool.not_eq_false, decide_eq_true_eq] at hcon
              exact hnone x (List.mem_reverse.mpr hx) (by simp [hkey, hcon])
            rw [List.find?_cons_of_neg _ (by simp [hpr]), List.find?_nil]
            rfl
      · rw [if_neg hdup, List.filter_cons]
        simp only [List.any_eq_true, decide_eq_true_eq, not_exists, not_and] at hdup
        by_cases hpr : key r = k
        · have hnone : rs.reverse.find? (fun r2 => decide (key r2 = k)) = none := by
            apply List.find?_eq_none.mpr
            intro x hx
            simp only [decide_eq_true_eq]
            intro hxk
            exact hdup x (List.mem_reverse.mp hx) (by rw [hxk, hpr])
          rw [if_pos (by simp [hpr]), ih, hnone,
            List.find?_cons_of_pos _ (by simp [hpr])]
          rfl
        · rw [if_neg (by simp [hpr]), ih,
            List.find?_cons_of_neg _ (by simp [hpr]), List.find?_nil]
          cases List.find? (fun r2 => decide (key r2 = k)) rs.reverse <;> rfl

/-! ### Lemmas about pad_courses -/

theorem padFrom_length (label : Str) :
    ∀ (n k : Nat), (padFrom label n k).length = k := by
  intro n k
  induction k generalizing n with
  | zero => rfl
  | succ m ih => rw [padFrom, List.length_cons, ih]

theorem padLoop_spec (label : Str) :
    ∀ (fuel : Nat) (courses : List CourseDict), 5 - courses.length ≤ fuel →
      padLoop courses label
        = courses ++ padFrom label (courses.length + 1) (5 - courses.length) := by
  intro fuel
  induction fuel with
  | zero =>
      intro cs h
      have h5 : ¬ cs.length < 5 := by omega
      rw [padLoop, if_neg h5]
      have h0 : 5 - cs.length = 0 := by omega
      rw [h0, padFrom, List.append_nil]
  | succ m ih =>
      intro cs h
      by_cases h5 : cs.length < 5
      · rw [padLoop, if_pos h5,
          ih (cs ++ [placeholderCourse label (cs.length + 1)]) (by simp; omega)]
        rw [List.length_append, List.length_cons, List.length_nil]
        have h1 : 5 - cs.length = (5 - (cs.length + 0 + 1)) + 1 := by omega
        rw [h1, padFrom, List.append_assoc]
        rfl
      · rw [padLoop, if_neg h5]
        have h0 : 5 - cs.length = 0 := by omega
        rw [h0, padFrom, List.append_nil]

/-- Padding the empty batch yields exactly the 5 placeholder rows. -/
theorem pad_courses_nil (label : Str) :
    pad_courses ([] : List CourseDict) label = padFrom label 1 5 := by
  unfold pad_courses
  rw [padLoop_spec label 5 [] (Nat.sub_le 5 _), List.nil_append]
  apply List.take_of_length_le
  rw [padFrom_length]
  exact Nat.sub_le 5 _

/-! ### The claims -/

/-- C1: the merge block of main does not preserve referential integrity.  When
a prior dataset is loaded and a university row is removed by name-based
deduplication, its surviving course rows keep a university_id that matches no
university row, which is exactly what the relational check of verify_data
rejects.  The theorem evaluates the merge at such an input. -/
theorem c1_merge_breaks_referential_integrity :
    refIntegrity (mergeUniversities c1_prior_universities c1_new_universities)
        (mergeCourses c1_prior_courses c1_new_courses) = false
    ∧ mergeUniversities c1_prior_universities c1_new_universities
        = c1_new_universities
    ∧ ⟨"c-old".data, "u-old".data, "Old Course".data, NA, NA, NA, NA, NA⟩
        ∈ mergeCourses c1_prior_courses c1_new_courses := by
  refine ⟨by decide, by decide, by decide⟩

/-- C2 counterexample: on the fixed example text, extract_details_from_page
does not return Level at all, because the level vocabulary has no entry
matching BSc; the claimed value Bachelor is therefore not produced. -/
theorem c2_counterexample :
    (extract_details_from_page (some c2_soup)).level = none
    ∧ (extract_details_from_page (some c2_soup)).level ≠ some "Bachelor\x27s".data := by
  refine ⟨by decide, by decide⟩

/-- C2 (amended): on the fixed example text, Duration is 3 Years, Fees is
£15,000, the course name is the heading and the discipline is Computer
Science, but no Level key is returned since the text holds no level keyword. -/
theorem c2_extraction_example :
    (extract_details_from_page (some c2_soup)).duration = some "3 Years".data
    ∧ (extract_details_from_page (some c2_soup)).fees = some "£15,000".data
    ∧ (extract_details_from_page (some c2_soup)).level = none
    ∧ guess_discipline "BSc Computer Science".data = "Computer Science".data
    ∧ extract_course_name (some c2_soup) = some "BSc Computer Science".data := by
  refine ⟨by decide, by decide, by decide, by decide, by decide⟩

/-- C3 counterexample: a placeholder row does not have the sentinel in every
data field: its Discipline is the default label General. -/
theorem c3_counterexample :
    (pad_courses [] "Oxford".data).head?.map (fun c => c.discipline)
        = some "General".data
    ∧ "General".data ≠ NA := by
  rw [pad_courses_nil "Oxford".data]
  refine ⟨by decide, by decide⟩

/-- C3 (amended): pad_courses always returns exactly 5 records; an input with
at least 5 records is truncated to its first 5, and a shorter input is
extended in place by placeholder rows whose Course Name is the label followed
by Course and the 1-based position, whose Discipline is General and whose
other data fields are the sentinel (see placeholderCourse); surviving records
keep their values and order. -/
theorem c3_pad_courses_normalizes (courses : List CourseDict) (label : Str) :
    (pad_courses courses label).length = 5
    ∧ (5 ≤ courses.length → pad_courses courses label = courses.take 5)
    ∧ (courses.length < 5 →
        pad_courses courses label
          = courses ++ padFrom label (courses.length + 1) (5 - courses.length)) := by
  have hloop := padLoop_spec label (5 - courses.length) courses (le_refl _)
  unfold pad_courses
  rw [hloop]
  by_cases h5 : courses.length < 5
  · refine ⟨?_, fun h => absurd h5 (by omega), fun _ => ?_⟩
    · rw [List.length_take, List.length_append, padFrom_length]
      omega
    · apply List.take_of_length_le
      rw [List.length_append, padFrom_length]
      omega
  · have h0 : 5 - courses.length = 0 := by omega
    rw [h0, padFrom, List.append_nil]
    refine ⟨?_, fun _ => rfl, fun h => absurd h h5⟩
    rw [List.length_take]
    omega

/-- C3 witness: the amended claim applied to an empty batch and to a 6-row
batch of placeholder rows. -/
theorem c3_witness :
    pad_courses [] "Oxford".data = [] ++ padFrom "Oxford".data 1 5
    ∧ pad_courses (padFrom "X".data 1 6) "X".data = (padFrom "X".data 1 6).take 5 :=
  ⟨(c3_pad_courses_normalizes [] "Oxford".data).2.2 (by decide),
   (c3_pad_courses_normalizes (padFrom "X".data 1 6) "X".data).2.1 (by decide)⟩

/-- C5: both merges are last-write-wins.  In the merged university table the
rows carrying a given university_name are exactly the last input row carrying
it (prior rows listed before new rows), and likewise for courses keyed by the
pair course_name, university_id. -/
theorem c5_merge_last_write_wins (priorU newU : List UniRow) (nm : Str)
    (priorC newC : List CourseRow) (ky : Str × Str) :
    (mergeUniversities priorU newU).filter (fun r => decide (r.university_name = nm))
        = ((priorU ++ newU).reverse.find?
            (fun r => decide (r.university_name = nm))).toList
    ∧ (mergeCourses priorC newC).filter
          (fun c => decide ((c.course_name, c.university_id) = ky))
        = ((priorC ++ newC).reverse.find?
            (fun c => decide ((c.course_name, c.university_id) = ky))).toList :=
  ⟨dropDupKeepLast_filter _ (priorU ++ newU) nm,
   dropDupKeepLast_filter _ (priorC ++ newC) ky⟩

/-- C6: when the listing fetch fails, discover_and_scrape returns the empty
list, and padding the empty batch yields exactly 5 placeholder rows. -/
theorem c6_unreachable_listing_pads (fetch : Str → Bool → Option Soup)
    (listing_url link_selector : Str) (base_url : Option Str) (verify : Bool)
    (label : Str) (h : fetch listing_url verify = none) :
    discover_and_scrape fetch listing_url link_selector base_url verify 5 = []
    ∧ pad_courses (discover_and_scrape fetch listing_url link_selector base_url verify 5)
        label = padFrom label 1 5
    ∧ (pad_courses (discover_and_scrape fetch listing_url link_selector base_url verify 5)
        label).length = 5 := by
  have hd : discover_and_scrape fetch listing_url link_selector base_url verify 5 = [] := by
    unfold discover_and_scrape
    rw [h]
  have hp := pad_courses_nil label
  refine ⟨hd, ?_, ?_⟩
  · rw [hd, hp]
  · rw [hd, hp, padFrom_length]

/-- C6 witness: the claim applied to an oracle for which every fetch fails. -/
theorem c6_witness :
    discover_and_scrape (fun _ _ => none) "https://www.ox.ac.uk/c".data "a".data
        none true 5 = []
    ∧ pad_courses (discover_and_scrape (fun _ _ => none) "https://www.ox.ac.uk/c".data
        "a".data none true 5) "Oxford".data = padFrom "Oxford".data 1 5
    ∧ (pad_courses (discover_and_scrape (fun _ _ => none) "https://www.ox.ac.uk/c".data
        "a".data none true 5) "Oxford".data).length = 5 :=
  c6_unreachable_listing_pads (fun _ _ => none) "https://www.ox.ac.uk/c".data
    "a".data none true "Oxford".data rfl

/-- C4 counterexample: the fee patterns require 3 characters from the class
digit-or-comma, not 3 digits, so an input can produce a Fees value holding no
digit at all. -/
theorem c4_counterexample :
    (extract_details_from_page (some c4_counter_soup)).fees = some "£,,,".data
    ∧ "£,,,".data.countP Char.isDigit = 0 := by
  refine ⟨by decide, by decide⟩

/-- C4 (amended): whenever extract_details_from_page returns a Fees value, the
value is a currency symbol of {£, $, €, ₹} followed by a string holding at
least 3 characters that are digits or commas (not necessarily 3 digits). -/
theorem c4_fees_value_shape (osoup : Option Soup) (v : Str)
    (h : (extract_details_from_page osoup).fees = some v) :
    ∃ c t2, v = c :: t2 ∧ isCurrency c = true ∧ 3 ≤ t2.countP isDigitComma :=
  fees_shape h

/-- C4 witness: the amended claim at a page holding the fee text £999. -/
theorem c4_witness :
    ∃ c t2, "£999".data = c :: t2 ∧ isCurrency c = true
      ∧ 3 ≤ t2.countP isDigitComma :=
  c4_fees_value_shape (some c4_witness_soup) "£999".data (by decide)

/-- C7: guess_discipline is total by construction and returns General exactly
when no keyword of the table occurs in the lowercased name; otherwise the
first keyword of the table occurring in the lowercased name decides the
label. -/
theorem c7_guess_discipline_first_hit (name : Str) :
    (guess_discipline name = "General".data ↔
      ∀ kv ∈ discipline_map, isSubstr kv.1 (pyLower name) = false)
    ∧ ∀ (front : List (Str × Str)) (kv : Str × Str) (back : List (Str × Str)),
        discipline_map = front ++ kv :: back →
        isSubstr kv.1 (pyLower name) = true →
        (∀ kv2 ∈ front, isSubstr kv2.1 (pyLower name) = false) →
        guess_discipline name = kv.2 := by
  constructor
  · constructor
    · intro hgen kv hkv
      cases hfind : discipline_map.find? (fun kv2 => isSubstr kv2.1 (pyLower name)) with
      | none =>
          have hx := List.find?_eq_none.mp hfind kv hkv
          simpa using hx
      | some found =>
          exfalso
          unfold guess_discipline at hgen
          rw [hfind] at hgen
          have hmem := List.mem_of_find?_eq_some hfind
          have hall : ∀ kv2 ∈ discipline_map, kv2.2 ≠ "General".data := by decide
          exact hall found hmem hgen
    · intro hnone
      have hfind : discipline_map.find? (fun kv2 => isSubstr kv2.1 (pyLower name))
          = none :=
        List.find?_eq_none.mpr (fun x hx => by simp [hnone x hx])
      unfold guess_discipline
      rw [hfind]
  · intro front kv back heq hkv hfront
    have hfind : discipline_map.find? (fun kv2 => isSubstr kv2.1 (pyLower name))
        = some kv := by
      rw [heq, List.find?_append]
      have h1 : front.find? (fun kv2 => isSubstr kv2.1 (pyLower name)) = none :=
        List.find?_eq_none.mpr (fun x hx => by simp [hfront x hx])
      rw [h1, List.find?_cons_of_pos
        (p := fun kv2 : Str × Str => isSubstr kv2.1 (pyLower name)) _ hkv]
      rfl
    unfold guess_discipline
    rw [hfind]

/-- C7 witness: the first-hit rule applied at the head of the table. -/
theorem c7_witness :
    guess_discipline "BSc Computer Science".data = "Computer Science".data :=
  (c7_guess_discipline_first_hit "BSc Computer Science".data).2 []
    ("computer".data, "Computer Science".data) discipline_map.tail rfl (by decide)
    (fun kv2 hkv2 => absurd hkv2 (List.not_mem_nil kv2))

/-- C9 counterexample: the Jamia Hamdard text scan has no diploma branch: a
matched text holding diploma and no master or phd keyword is assigned the
level Bachelor, not Diploma. -/
theorem c9_counterexample :
    jhMatched "Diploma in Nursing".data = true
    ∧ jhLevel "Diploma in Nursing".data = "Bachelor\x27s".data
    ∧ "Bachelor\x27s".data ≠ "Diploma".data := by
  refine ⟨by decide, by decide, by decide⟩

/-- C9 (amended): the JMI scan follows the precedence master, then phd, then
diploma, then bachelor as default; the Jamia Hamdard scan follows master
(with ll.m among its master keywords), then phd, then bachelor as default —
it has no diploma case. -/
theorem c9_level_precedence (text : Str) :
    (jmi_master_keywords.any (fun k => isSubstr k (pyLower text)) = true →
      jmiLevel text = "Master\x27s".data)
    ∧ (jmi_master_keywords.any (fun k => isSubstr k (pyLower text)) = false →
        isSubstr "ph.d".data (pyLower text) = true →
        jmiLevel text = "Doctoral".data)
    ∧ (jmi_master_keywords.any (fun k => isSubstr k (pyLower text)) = false →
        isSubstr "ph.d".data (pyLower text) = false →
        isSubstr "diploma".data (pyLower text) = true →
        jmiLevel text = "Diploma".data)
    ∧ (jmi_master_keywords.any (fun k => isSubstr k (pyLower text)) = false →
        isSubstr "ph.d".data (pyLower text) = false →
        isSubstr "diploma".data (pyLower text) = false →
        jmiLevel text = "Bachelor\x27s".data)
    ∧ (jh_master_keywords.any (fun k => isSubstr k (pyLower text)) = true →
        jhLevel text = "Master\x27s".data)
    ∧ (jh_master_keywords.any (fun k => isSubstr k (pyLower text)) = false →
        isSubstr "ph.d".data (pyLower text) = true →
        jhLevel text = "Doctoral".data)
    ∧ (jh_master_keywords.any (fun k => isSubstr k (pyLower text)) = false →
        isSubstr "ph.d".data (pyLower text) = false →
        jhLevel text = "Bachelor\x27s".data) := by
  refine ⟨fun h1 => ?_, fun h1 h2 => ?_, fun h1 h2 h3 => ?_, fun h1 h2 h3 => ?_,
    fun h1 => ?_, fun h1 h2 => ?_, fun h1 h2 => ?_⟩
  · simp [jmiLevel, h1]
  · simp [jmiLevel, h1, h2]
  · simp [jmiLevel, h1, h2, h3]
  · simp [jmiLevel, h1, h2, h3]
  · simp [jhLevel, h1]
  · simp [jhLevel, h1, h2]
  · simp [jhLevel, h1, h2]

/-- C9 witness: the precedence applied to concrete matched programme texts. -/
theorem c9_witness :
    jmiLevel "M.Tech Computer Engineering".data = "Master\x27s".data
    ∧ jmiLevel "Diploma in Computer Engineering".data = "Diploma".data
    ∧ jhLevel "LL.M Corporate Law".data = "Master\x27s".data
    ∧ jhLevel "Ph.D Pharmacy".data = "Doctoral".data :=
  ⟨(c9_level_precedence "M.Tech Computer Engineering".data).1 (by decide),
   (c9_level_precedence "Diploma in Computer Engineering".data).2.2.1
     (by decide) (by decide) (by decide),
   (c9_level_precedence "LL.M Corporate Law".data).2.2.2.2.1 (by decide),
   (c9_level_precedence "Ph.D Pharmacy".data).2.2.2.2.2.1 (by decide) (by decide)⟩

/-- C10 counterexample: on fetch failure scrape_course_page returns the
sentinel as Discipline and does not apply guess_discipline to the fallback
name, whose guessed label would be General. -/
theorem c10_counterexample :
    (scrape_course_page (fun _ _ => none) "u".data "Unknown Course".data true).discipline
        = NA
    ∧ guess_discipline "Unknown Course".data = "General".data
    ∧ NA ≠ "General".data := by
  refine ⟨by decide, by decide, by decide⟩

/-- C10 (amended): scrape_course_page always returns a record with all six
fields populated; on fetch failure every data field including Discipline is
the sentinel and Course Name is the fallback name; on success the Course Name
is the page heading when acceptable, otherwise the fallback name, and
Discipline is guess_discipline of that final name. -/
theorem c10_scrape_course_page_fields (fetch : Str → Bool → Option Soup)
    (url fallback_name : Str) (verify : Bool) :
    (fetch url verify = none →
      scrape_course_page fetch url fallback_name verify
        = ⟨fallback_name, NA, NA, NA, NA, NA⟩)
    ∧ ∀ soup, fetch url verify = some soup →
        (scrape_course_page fetch url fallback_name verify).discipline
            = guess_discipline
                (scrape_course_page fetch url fallback_name verify).courseName
        ∧ (scrape_course_page fetch url fallback_name verify).courseName
            = (extract_course_name (some soup)).getD fallback_name := by
  constructor
  · intro h
    unfold scrape_course_page
    rw [h]
  · intro soup h
    unfold scrape_course_page
    rw [h]
    cases hname : extract_course_name (some soup) <;> simp [hname]

/-- C10 witness: the amended claim at a failing fetch and at a constant page. -/
theorem c10_witness :
    scrape_course_page (fun _ _ => none) "u".data "Unknown Course".data true
        = ⟨"Unknown Course".data, NA, NA, NA, NA, NA⟩
    ∧ (scrape_course_page (fun _ _ => some c2_soup) "u".data "Unknown Course".data
        true).discipline
        = guess_discipline (scrape_course_page (fun _ _ => some c2_soup) "u".data
            "Unknown Course".data true).courseName :=
  ⟨(c10_scrape_course_page_fields (fun _ _ => none) "u".data "Unknown Course".data
      true).1 rfl,
   ((c10_scrape_course_page_fields (fun _ _ => some c2_soup) "u".data
      "Unknown Course".data true).2 c2_soup rfl).1⟩

/-- C8 counterexample: for a one-segment location string the code never sets
Country (it requires at least two comma-separated parts), so Country stays the
sentinel instead of the last (only) segment. -/
theorem c8_counterexample :
    fetch_wiki_university_info (c8_fetch "Berlin".data) "https://example.org/u".data
        = some ⟨NA, NA, "Berlin".data, NA⟩
    ∧ NA ≠ "Berlin".data := by
  refine ⟨by decide, by decide⟩

/-- C8 (amended): for a reference page whose infobox holds one location row
with text t, City is the stripped first comma-separated segment and Country is
the stripped last segment only when there are at least two segments (and that
last segment is not itself the sentinel text); with fewer than two segments
Country is never set from the infobox, so the static fallback table keyed by a
substring of the url is consulted, overriding both Country and City on a hit. -/
theorem c8_location_country_split (url t : Str) :
    (2 ≤ ((splitComma (pyStrip t)).map pyStrip).length →
      ((splitComma (pyStrip t)).map pyStrip).getLastD [] ≠ NA →
      fetch_wiki_university_info (c8_fetch t) url
        = some ⟨NA, ((splitComma (pyStrip t)).map pyStrip).getLastD [],
            ((splitComma (pyStrip t)).map pyStrip).headD [], NA⟩)
    ∧ (((splitComma (pyStrip t)).map pyStrip).length < 2 →
        fetch_wiki_university_info (c8_fetch t) url
          = some (match wiki_fallbacks.find? (fun f => isSubstr f.1 url) with
                  | some f => ⟨NA, f.2.1, f.2.2, NA⟩
                  | none =>
                      ⟨NA, NA, ((splitComma (pyStrip t)).map pyStrip).headD [], NA⟩)) := by
  have hstep : ∀ info2 : UniInfo,
      applyInfoRow ⟨NA, NA, NA, NA⟩ ⟨"Location".data, t, none⟩ = info2 →
      fetch_wiki_university_info (c8_fetch t) url
        = some (if info2.country = NA then
                  match wiki_fallbacks.find? (fun f => isSubstr f.1 url) with
                  | some f => ⟨info2.uniName, f.2.1, f.2.2, info2.website⟩
                  | none => info2
                else info2) := by
    intro info2 h2
    subst h2
    rfl
  have happly : applyInfoRow ⟨NA, NA, NA, NA⟩ ⟨"Location".data, t, none⟩
      = if 2 ≤ ((splitComma (pyStrip t)).map pyStrip).length then
          (⟨NA, ((splitComma (pyStrip t)).map pyStrip).getLastD [],
            ((splitComma (pyStrip t)).map pyStrip).headD [], NA⟩ : UniInfo)
        else ⟨NA, NA, ((splitComma (pyStrip t)).map pyStrip).headD [], NA⟩ := by
    rfl
  have hfetch := hstep _ happly
  constructor
  · intro hlen hne
    rw [if_pos hlen] at hfetch
    simp only at hfetch
    rw [if_neg hne] at hfetch
    exact hfetch
  · intro hlen
    rw [if_neg (show ¬ 2 ≤ ((splitComma (pyStrip t)).map pyStrip).length from
      by omega)] at hfetch
    simp only at hfetch
    rw [if_pos trivial] at hfetch
    exact hfetch

/-- C8 witness: a two-segment location is split into city and country; a
one-segment location leaves Country unset and the fallback table fires on a
matching url. -/
theorem c8_witness :
    fetch_wiki_university_info (c8_fetch "Oxford, United Kingdom".data)
        "https://example.org/u".data
      = some ⟨NA, "United Kingdom".data, "Oxford".data, NA⟩
    ∧ fetch_wiki_university_info (c8_fetch "Lahore".data)
        "https://en.wikipedia.org/wiki/Harvard_University".data
      = some ⟨NA, "United States".data, "Cambridge".data, NA⟩ :=
  ⟨(c8_location_country_split "https://example.org/u".data
      "Oxford, United Kingdom".data).1 (by decide) (by decide),
   (c8_location_country_split "https://en.wikipedia.org/wiki/Harvard_University".data
      "Lahore".data).2 (by decide)⟩
